import Mathlib

/-!
Verification of the gousto-meal-planner core against its specification.

The development shallowly embeds the two pipelines of the repository:

* Pipeline B (ingredient aggregation, `src/unnamed/part_000`):
  `parseQuantityFromLabel`, `getCleanDisplayName` and `combineIngredients`.
* Pipeline A (recipe extraction, `src/scripts/parse-recetas.js`):
  `slugify`, `isIndexEntry`, `isRecipeTitle`, `cleanTitle`,
  `looksLikeIngredient`, `separateContent` and the segmentation loop.

JavaScript numbers are modelled as exact rationals (`ℚ`); strings as
`String` (a wrapper of `List Char`); the concrete regular expressions of
the source are compiled by hand into scanning functions over `List Char`,
reproducing the leftmost-match and backtracking behaviour of the specific
patterns involved (justifications are given at each definition).
-/

set_option maxRecDepth 100000

/-! ## Character classes (JS regex `\s`, `\d`, `\w` over the data's alphabet) -/

/-- JS `\s` restricted to the ASCII whitespace characters that occur in the data. -/
def isWsChar (c : Char) : Bool :=
  c == ' ' || c == '\t' || c == '\n' || c == '\r' || c == '\x0b' || c == '\x0c'

/-- JS `\d`. -/
def isDigitChar (c : Char) : Bool := '0' ≤ c && c ≤ '9'

/-- JS `\w` (`[A-Za-z0-9_]`); accented letters are not word characters. -/
def isWordChar (c : Char) : Bool :=
  ('A' ≤ c && c ≤ 'Z') || ('a' ≤ c && c ≤ 'z') || ('0' ≤ c && c ≤ '9') || c == '_'

/-- JS `toLowerCase` restricted to ASCII plus the accented letters used by the
source locale (the only letters the two pipelines inspect). -/
def lowerChar (c : Char) : Char :=
  if 'A' ≤ c && c ≤ 'Z' then Char.ofNat (c.toNat + 32)
  else if c == 'Á' then 'á' else if c == 'É' then 'é' else if c == 'Í' then 'í'
  else if c == 'Ó' then 'ó' else if c == 'Ú' then 'ú' else if c == 'Ñ' then 'ñ'
  else if c == 'Ü' then 'ü' else c

/-- JS `toUpperCase` restricted to the same alphabet. -/
def upperChar (c : Char) : Char :=
  if 'a' ≤ c && c ≤ 'z' then Char.ofNat (c.toNat - 32)
  else if c == 'á' then 'Á' else if c == 'é' then 'É' else if c == 'í' then 'Í'
  else if c == 'ó' then 'Ó' else if c == 'ú' then 'Ú' else if c == 'ñ' then 'Ñ'
  else if c == 'ü' then 'Ü' else c

/-- Lowercase a whole string (JS `String.prototype.toLowerCase`). -/
def strLower (s : String) : String := ⟨s.data.map lowerChar⟩

/-- JS `String.prototype.trim` (whitespace from both ends). -/
def trimChars (l : List Char) : List Char :=
  ((l.dropWhile isWsChar).reverse.dropWhile isWsChar).reverse

/-- String-level trim. -/
def trimStr (s : String) : String := ⟨trimChars s.data⟩

/-! ## Decimal number reading (JS `parseFloat` / `parseInt` on matched digits) -/

/-- Numeric value of a digit character. -/
def digitVal (c : Char) : ℕ := c.toNat - '0'.toNat

/-- Value of a digit string (the digits are guaranteed by the callers). -/
def natOfDigits (ds : List Char) : ℕ := ds.foldl (fun n c => 10 * n + digitVal c) 0

/-- Exact value of `intPart.fracPart` as read by `parseFloat` on a
`\d+(\.\d+)?` match (JS doubles are modelled as exact rationals). -/
def ratOfParts (ip fp : List Char) : ℚ :=
  (natOfDigits ip : ℚ) + (natOfDigits fp : ℚ) / (10 : ℚ) ^ fp.length

/-- Case-insensitive literal-token match (the token is given lowercase, as in
the regex alternations of the source); returns the rest of the input on
success. -/
def matchTokCI : List Char → List Char → Option (List Char)
  | [], cs => some cs
  | _ :: _, [] => none
  | t :: ts, c :: cs => if lowerChar c == t then matchTokCI ts cs else none

/-! ## QuantityParser (`parseQuantityFromLabel`, src/unnamed/part_000) -/

/-- Preprocessing `label.replace(/\s*x0$/i, '')`: if the string ends in `x0`
(`x` case-insensitive), that suffix and the maximal whitespace run before it
(the leftmost viable match start of the anchored pattern) are removed. -/
def stripX0 (l : List Char) : List Char :=
  match l.reverse with
  | '0' :: x :: rest => if lowerChar x == 'x' then (rest.dropWhile isWsChar).reverse else l
  | _ => l

/-- The unit alternation `(g|kg|ml|l|tsp|tbsp|pcs?)` of pattern 1, in regex
trial order (`pcs?` is greedy, so `pcs` is tried before `pc`). -/
def unitAlts : List String := ["g", "kg", "ml", "l", "tsp", "tbsp", "pcs", "pc"]

/-- Try the unit alternatives in order at the current position; an alternative
succeeds only if the continuation `\)` also matches (regex backtracking falls
through to the next alternative otherwise). The lowercased matched text equals
the (lowercase) alternative itself. -/
def findUnitTok : List String → List Char → Option String
  | [], _ => none
  | u :: us, cs =>
    match matchTokCI u.data cs with
    | some rest => if rest.head? == some ')' then some u else findUnitTok us cs
    | none => findUnitTok us cs

/-- Read a `\d+(?:\.\d+)?` match at the current position and its value.
Maximal munch is faithful here: no following regex element (`\s*`, a unit
letter, `\)`) can consume a digit, so backtracking into the greedy groups
never changes the overall result. -/
def numParse (cs : List Char) : Option (ℚ × List Char) :=
  let ip := cs.takeWhile isDigitChar
  if ip.isEmpty then none
  else
    let r1 := cs.drop ip.length
    match r1 with
    | '.' :: r2 =>
      let fp := r2.takeWhile isDigitChar
      if fp.isEmpty then some (ratOfParts ip [], r1)
      else some (ratOfParts ip fp, r2.drop fp.length)
    | _ => some (ratOfParts ip [], r1)

/-- Pattern 1 `\((\d+(?:\.\d+)?)\s*(g|kg|ml|l|tsp|tbsp|pcs?)\)/i` tried at one
start position. -/
def parenUnitAt (cs : List Char) : Option (ℚ × String) :=
  match cs with
  | '(' :: r1 =>
    match numParse r1 with
    | some (a, r2) =>
      match findUnitTok unitAlts (r2.dropWhile isWsChar) with
      | some u => some (a, u)
      | none => none
    | none => none
  | _ => none

/-- Leftmost-match scan for pattern 1 (JS `String.prototype.match` without the
global flag finds the first position where the whole pattern matches). -/
def scanParenUnit : List Char → Option (ℚ × String)
  | [] => none
  | c :: cs =>
    match parenUnitAt (c :: cs) with
    | some r => some r
    | none => scanParenUnit cs

/-- Pattern 2 `\((\d+(?:\.\d+)?)\)/i` tried at one start position. -/
def parenNumAt (cs : List Char) : Option ℚ :=
  match cs with
  | '(' :: r1 =>
    match numParse r1 with
    | some (a, r2) => if r2.head? == some ')' then some a else none
    | none => none
  | _ => none

/-- Leftmost-match scan for pattern 2. -/
def scanParenNum : List Char → Option ℚ
  | [] => none
  | c :: cs =>
    match parenNumAt (c :: cs) with
    | some r => some r
    | none => scanParenNum cs

/-- Pattern 3 `x\s*(\d+)$/i` tried at one start position: `x`, optional
whitespace, then digits running to the very end of the string (JS `$` without
the multiline flag matches only at the end of input). -/
def xSuffixAt (cs : List Char) : Option ℕ :=
  match cs with
  | c :: r1 =>
    if lowerChar c == 'x' then
      let r2 := r1.dropWhile isWsChar
      let ds := r2.takeWhile isDigitChar
      if !ds.isEmpty && (r2.drop ds.length).isEmpty then some (natOfDigits ds) else none
    else none
  | [] => none

/-- Leftmost-match scan for pattern 3. -/
def scanXSuffix : List Char → Option ℕ
  | [] => none
  | c :: cs =>
    match xSuffixAt (c :: cs) with
    | some r => some r
    | none => scanXSuffix cs

/-- Pattern 4 `^(\d+)\s*x?\s+/i`: leading digits, then `\s*x?\s+`.  With
backtracking, the tail matches exactly when the text after the digits starts
with a whitespace character (`\s*` empty, `x?` empty, `\s+` takes it), or
starts with `x`/`X` immediately followed by a whitespace character. -/
def leadingNum (cs : List Char) : Option ℕ :=
  let ds := cs.takeWhile isDigitChar
  if ds.isEmpty then none
  else
    match cs.drop ds.length with
    | c :: rest =>
      if isWsChar c then some (natOfDigits ds)
      else if lowerChar c == 'x' then
        match rest with
        | d :: _ => if isWsChar d then some (natOfDigits ds) else none
        | [] => none
      else none
    | [] => none

/-- Result of `parseQuantityFromLabel`. -/
structure ParsedLabel where
  amount : ℚ
  unit : String
  isPackBased : Bool
deriving DecidableEq

/-- `parseQuantityFromLabel` (src/unnamed/part_000): ordered pattern
precedence, first match wins; the fall-through default is
`{amount 1, unit pcs, count-based}`.  Pattern 1 stores the matched unit
lowercased; since the alternatives are matched case-insensitively against
lowercase tokens, that is the matched alternative itself. -/
def parseQuantityFromLabel (label : String) : ParsedLabel :=
  let cs := stripX0 label.data
  match scanParenUnit cs with
  | some (a, u) => ⟨a, u, true⟩
  | none =>
    match scanParenNum cs with
    | some a => ⟨a, "pcs", true⟩
    | none =>
      match scanXSuffix cs with
      | some n => ⟨(n : ℚ), "pcs", false⟩
      | none =>
        match leadingNum cs with
        | some n => ⟨(n : ℚ), "pcs", true⟩
        | none => ⟨1, "pcs", false⟩

/-- `getCleanDisplayName` (src/unnamed/part_000): capitalizes the first
character of the base name; the label argument is unused in the source. -/
def getCleanDisplayName (name : String) (_label : String) : String :=
  match name.data with
  | [] => ""
  | c :: rest => ⟨upperChar c :: rest⟩

/-! ## Aggregator (`combineIngredients`, src/unnamed/part_000) -/

/-- One normalized quantity attached to a combined ingredient. -/
structure ParsedQuantity where
  amount : ℚ
  unit : String
  originalLabel : String
deriving DecidableEq

/-- Output row of the aggregator. -/
structure CombinedIngredient where
  name : String
  displayName : String
  quantities : List ParsedQuantity
  totalAmount : ℚ
  unit : String
  imageUrl : Option String
  recipeCount : ℕ
deriving DecidableEq

/-- One ingredient occurrence of one recipe (input to Pipeline B). -/
structure RawIngredient where
  id : String
  name : String
  label : String
  imageUrl : Option String
  quantity : ℚ
deriving DecidableEq

/-- The per-recipe ingredient list (input to Pipeline B). -/
structure RecipeIngredients where
  recipeTitle : String
  ingredients : List RawIngredient
deriving DecidableEq

/-- The per-occurrence record pushed into the name buckets by the first loop
of `combineIngredients`. -/
structure GroupItem where
  label : String
  imageUrl : Option String
  parsedAmount : ℚ
  unit : String
  portionQuantity : ℚ
  recipeTitle : String
deriving DecidableEq

/-- The measured-unit whitelist of `combineIngredients`. -/
def measuredUnits : List String := ["g", "kg", "ml", "l", "tsp", "tbsp"]

/-- Body of the first loop of `combineIngredients`: parse the label, resolve
the pack-based/count-based duality of `quantity` (`in_box`), and coerce units
outside the measured set to `pcs`. -/
def mkItem (recipeTitle : String) (ing : RawIngredient) : GroupItem :=
  let p := parseQuantityFromLabel ing.label
  { label := ing.label
    imageUrl := ing.imageUrl
    parsedAmount := if p.isPackBased then p.amount * ing.quantity else ing.quantity
    unit := if measuredUnits.contains (strLower p.unit) then p.unit else "pcs"
    portionQuantity := ing.quantity
    recipeTitle := recipeTitle }

/-- Keys of a JS `Map` in insertion order: first occurrence of each element. -/
def firstDedup : List String → List String
  | [] => []
  | a :: l => a :: firstDedup (l.filter (fun b => !(b == a)))
termination_by l => l.length
decreasing_by
  simp only [List.length_cons]
  exact Nat.lt_succ_of_le (List.length_filter_le _ l)

/-- `new Set(xs).size`: the number of distinct elements. -/
def distinctCount (l : List String) : ℕ := (firstDedup l).length

/-- The normalized unit a group item is bucketed under (`item.unit.toLowerCase()`). -/
def unitKey (i : GroupItem) : String := strLower i.unit

/-- Keys of the per-unit `Map` of one name bucket, in insertion order. -/
def unitKeys (items : List GroupItem) : List String := firstDedup (items.map unitKey)

/-- `items.reduce((sum, item) => sum + item.parsedAmount, 0)`. -/
def sumAmounts (items : List GroupItem) : ℚ :=
  items.foldl (fun s i => s + i.parsedAmount) 0

/-- The `quantities` array of an emitted row. -/
def itemQuantities (items : List GroupItem) : List ParsedQuantity :=
  items.map (fun i => ⟨i.parsedAmount, i.unit, i.label⟩)

/-- `items[0].imageUrl` (buckets are never empty in the source). -/
def headImage (items : List GroupItem) : Option String :=
  match items with
  | [] => none
  | i :: _ => i.imageUrl

/-- `items[0].label` (only ever passed to `getCleanDisplayName`, which ignores it). -/
def headLabel (items : List GroupItem) : String :=
  match items with
  | [] => ""
  | i :: _ => i.label

/-- Build one emitted `CombinedIngredient` row from a unit bucket. -/
def mkCombined (rowName : String) (rowDisplay : String) (u : String)
    (items : List GroupItem) : CombinedIngredient :=
  { name := rowName
    displayName := rowDisplay
    quantities := itemQuantities items
    totalAmount := sumAmounts items
    unit := u
    imageUrl := headImage items
    recipeCount := distinctCount (items.map (fun i => i.recipeTitle)) }

/-- Emission for one name bucket: a single row when all items share one
normalized unit, otherwise one suffixed row per unit (second loop of
`combineIngredients`). -/
def emitGroup (name : String) (items : List GroupItem) : List CombinedIngredient :=
  let keys := unitKeys items
  if keys.length = 1 then
    [mkCombined name (getCleanDisplayName name (headLabel items)) (keys.headD "") items]
  else
    keys.map (fun u =>
      mkCombined (name ++ " (" ++ u ++ ")")
        (getCleanDisplayName name (headLabel items) ++ " (" ++ u ++ ")") u
        (items.filter (fun i => unitKey i == u)))

/-- All occurrence records in traversal order (both loops of the first pass),
each tagged with the ingredient name it is bucketed under. -/
def allGroupItems (lists : List RecipeIngredients) : List (String × GroupItem) :=
  lists.flatMap (fun l => l.ingredients.map (fun ing => (ing.name, mkItem l.recipeTitle ing)))

/-- `combineIngredients` before the final sort: one emission per name bucket,
name buckets in insertion order; a bucket's items are exactly the occurrence
records with that name, in traversal order. -/
def combineIngredientsCore (lists : List RecipeIngredients) : List CombinedIngredient :=
  let items := allGroupItems lists
  (firstDedup (items.map (fun i => i.1))).flatMap
    (fun n => emitGroup n ((items.filter (fun i => i.1 == n)).map (fun i => i.2)))

/-- `combineIngredients` (src/unnamed/part_000).  The final
`sort((a, b) => a.displayName.localeCompare(b.displayName))` is locale
dependent; it is modelled as sorting by an arbitrary comparator `cmp` on

display names — every sort is a permutation of the unsorted result, which is
all the claims about row contents need. -/
def combineIngredients (cmp : String → String → Bool)
    (lists : List RecipeIngredients) : List CombinedIngredient :=
  (combineIngredientsCore lists).mergeSort (fun a b => cmp a.displayName b.displayName)

/-! ## Pipeline A: slug derivation (`slugify`, src/scripts/parse-recetas.js) -/

/-- Character kept by the `replace(/[^a-z0-9\s-]/g, '')` step. -/
def isSlugKeep (c : Char) : Bool :=
  ('a' ≤ c && c ≤ 'z') || isDigitChar c || isWsChar c || c == '-'

/-- Composition of `toLowerCase().normalize('NFD').replace(/[̀-ͯ]/g, '')`
on one character, for the source locale's alphabet: accented letters decompose
into their base letter plus a combining mark, which is then stripped.  For any
character outside this alphabet the subsequent `[^a-z0-9\s-]` filter removes
whatever the normalization produced, so `slugify`'s output does not depend on
the unmodelled part of Unicode normalization. -/
def foldAccent (c : Char) : Char :=
  if c == 'á' then 'a' else if c == 'é' then 'e' else if c == 'í' then 'i'
  else if c == 'ó' then 'o' else if c == 'ú' then 'u' else if c == 'ü' then 'u'
  else if c == 'ñ' then 'n' else c

/-- Replace every maximal run of `p`-characters by the single character `r`
(the two replacement steps mapping each `\s+` run and each `-+` run to a
single hyphen); the flag records whether the previous character was part of a
run. -/
def collapseRunsAux (p : Char → Bool) (r : Char) : Bool → List Char → List Char
  | _, [] => []
  | inRun, c :: cs =>
    if p c then
      if inRun then collapseRunsAux p r true cs
      else r :: collapseRunsAux p r true cs
    else c :: collapseRunsAux p r false cs

/-- Run-collapsing replacement, starting outside a run. -/
def collapseRuns (p : Char → Bool) (r : Char) (l : List Char) : List Char :=
  collapseRunsAux p r false l

/-- Hyphen test for the `-+` collapse. -/
def isHyph (c : Char) : Bool := c == '-'

/-- One leading hyphen removed (the `^-` half of the final trim; each half of
the alternation can match at most once). -/
def dropLeadHyphen (l : List Char) : List Char :=
  match l with
  | c :: t => if c = '-' then t else c :: t
  | [] => []

/-- `slugify` (src/scripts/parse-recetas.js): lowercase, strip diacritics,
drop characters outside `[a-z0-9\s-]`, collapse whitespace runs to single
hyphens, collapse hyphen runs, trim one leading and one trailing hyphen
(the two halves of `/^-|-$/g` match at most once each). -/
def slugify (title : String) : String :=
  let s1 := title.data.map (fun c => foldAccent (lowerChar c))
  let s2 := s1.filter isSlugKeep
  let s3 := collapseRuns isWsChar '-' s2
  let s4 := collapseRuns isHyph '-' s3
  let s5 := dropLeadHyphen s4
  ⟨(dropLeadHyphen s5.reverse).reverse⟩

/-! ## IndexSkipper (`isIndexEntry`, src/scripts/parse-recetas.js) -/

/-- Tail of the index-entry pattern after a middle dot: `\s*\d+\s*$`.
Greedy maximal munch is faithful: whitespace cannot be a digit and vice
versa, and `$` only matches at the end of input. -/
def idxTail (cs : List Char) : Bool :=
  let r1 := cs.dropWhile isWsChar
  let ds := r1.takeWhile isDigitChar
  !ds.isEmpty && ((r1.drop ds.length).dropWhile isWsChar).isEmpty

/-- Leftmost-match scan for `/·\s*\d+\s*$/` (only `·` positions can start a
match). -/
def hasIdxPat : List Char → Bool
  | [] => false
  | c :: cs => (c == '·' && idxTail cs) || hasIdxPat cs

/-- `isIndexEntry` (src/scripts/parse-recetas.js): the line contains a middle
dot followed by optional whitespace, digits and optional trailing whitespace
at the end of the line. -/
def isIndexEntry (line : String) : Bool := hasIdxPat line.data

/-! ## RecipeSegmenter (`isRecipeTitle`, `cleanTitle`, src/scripts/parse-recetas.js) -/

/-- One attempted match of `\s*XE\s*"[^"]*"\s*` at the current position.
The leading `\s*` can only take the whole whitespace run (whitespace is never
`X`), `[^"]*` runs greedily to the next quote, and each trailing `\s*` is
likewise forced; returns the rest of the input after the match. -/
def xeMatchAt (l : List Char) : Option (List Char) :=
  match l.dropWhile isWsChar with
  | 'X' :: 'E' :: r2 =>
    match r2.dropWhile isWsChar with
    | '"' :: r4 =>
      match r4.dropWhile (fun c => !(c == '"')) with
      | '"' :: r6 => some (r6.dropWhile isWsChar)
      | _ => none
    | _ => none
  | _ => none

/-- Any successful `xeMatchAt` consumes at least the two characters `XE`. -/
theorem xeMatchAt_lt {l rest : List Char} (h : xeMatchAt l = some rest) :
    rest.length < l.length := by
  have hl := (List.dropWhile_sublist (l := l) (p := isWsChar)).length_le
  unfold xeMatchAt at h
  split at h
  next r2 heq1 =>
    have hr2 := (List.dropWhile_sublist (l := r2) (p := isWsChar)).length_le
    split at h
    next r4 heq2 =>
      have hr4 := (List.dropWhile_sublist (l := r4) (p := fun c => !(c == '"'))).length_le
      split at h
      next r6 heq3 =>
        have hr6 := (List.dropWhile_sublist (l := r6) (p := isWsChar)).length_le
        have hrest : rest = r6.dropWhile isWsChar := by
          injection h with h2
          exact h2.symm
        rw [heq1] at hl
        rw [heq2] at hr2
        rw [heq3] at hr4
        simp only [List.length_cons] at hl hr2 hr4
        rw [hrest]
        omega
      next => simp at h
    next => simp at h
  next => simp at h

/-- Global replacement of `\s*XE\s*"[^"]*"\s*` matches by the empty string:
leftmost-first, non-overlapping, resuming after the end of each match. -/
def xeScan (l : List Char) : List Char :=
  match l with
  | [] => []
  | c :: cs =>
    match h : xeMatchAt (c :: cs) with
    | some rest => xeScan rest
    | none => c :: xeScan cs
termination_by l.length
decreasing_by
  · exact xeMatchAt_lt h
  · simp

/-- The letter set kept by the `[^A-ZÁÉÍÓÚÑÜ a-záéíóúñü]` removal of
`isRecipeTitle` (note that it includes the space character). -/
def isTitleLetter (c : Char) : Bool :=
  ('A' ≤ c && c ≤ 'Z') || ('a' ≤ c && c ≤ 'z') || c == ' ' ||
  c == 'Á' || c == 'É' || c == 'Í' || c == 'Ó' || c == 'Ú' || c == 'Ñ' || c == 'Ü' ||
  c == 'á' || c == 'é' || c == 'í' || c == 'ó' || c == 'ú' || c == 'ñ' || c == 'ü'

/-- The uppercase letter class `[A-ZÁÉÍÓÚÑÜ]` counted by `isRecipeTitle`. -/
def isUpperLetter (c : Char) : Bool :=
  ('A' ≤ c && c ≤ 'Z') ||
  c == 'Á' || c == 'É' || c == 'Í' || c == 'Ó' || c == 'Ú' || c == 'Ñ' || c == 'Ü'

/-- The lowercase letter class `[a-záéíóúñü]` counted by `isRecipeTitle`. -/
def isLowerLetter (c : Char) : Bool :=
  ('a' ≤ c && c ≤ 'z') ||
  c == 'á' || c == 'é' || c == 'í' || c == 'ó' || c == 'ú' || c == 'ñ' || c == 'ü'

/-- `isRecipeTitle` (src/scripts/parse-recetas.js): strip `XE "..."` markers
and trim, reject cleaned lines shorter than 3 characters and index entries,
then require at least one uppercase letter and an uppercase share of at least
70% among the letters.  The source compares `uc / (uc + lc) >= 0.7` in IEEE
doubles; for any `uc + lc` below `10^15` the double comparison agrees exactly
with the rational comparison `10 * uc ≥ 7 * (uc + lc)` used here, because a
fraction of naturals that small cannot fall strictly between `0.7`'s double
and the exact value `7/10`. -/
def isRecipeTitle (line : String) : Bool :=
  let cleaned := trimChars (xeScan line.data)
  if cleaned.length < 3 then false
  else if isIndexEntry line then false
  else
    let letters := cleaned.filter isTitleLetter
    let uc := (letters.filter isUpperLetter).length
    let lc := (letters.filter isLowerLetter).length
    decide (0 < uc) && decide (7 * (uc + lc) ≤ 10 * uc)

/-- `cleanTitle` (src/scripts/parse-recetas.js): remove `XE "..."` markers,
collapse whitespace runs to single spaces, trim. -/
def cleanTitle (title : String) : String :=
  ⟨trimChars (collapseRuns isWsChar ' ' (xeScan title.data))⟩

/-! ## ContentClassifier (`looksLikeIngredient`, src/scripts/parse-recetas.js) -/

/-- The cooking-verb vocabulary of the `methodVerbs` regex, in source order. -/
def methodVerbs : List String :=
  ["cocinar", "freír", "hervir", "mezclar", "agregar", "añadir", "poner",
   "dejar", "preparar", "calentar", "cortar", "licuar", "batir", "servir",
   "retirar", "tapar", "hornear", "precalentar", "sazonar", "condimentar",
   "espolvorear", "vaciar", "unir", "derretir", "dorar", "saltear",
   "revolver", "colar", "rallar", "picar"]

/-- The trailing `\b` after a token ending in a word character: the next
character must be absent or a non-word character. -/
def boundaryOkAfter (rest : List Char) : Bool :=
  match rest with
  | [] => true
  | c :: _ => !isWordChar c

/-- Case-insensitive match of one token at the current position, followed by a
word boundary (every token used here ends in an ASCII letter). -/
def wordAt (w : String) (cs : List Char) : Bool :=
  match matchTokCI w.data cs with
  | some rest => boundaryOkAfter rest
  | none => false

/-- Does any token of the alternation match at this position (with its
trailing boundary)?  Because a failed trailing `\b` backtracks into the next
alternative, `test()` of such a regex is exactly this existential; the
alternation order only affects the unused capture group. -/
def anyWordAt (ws : List String) (cs : List Char) : Bool := ws.any (fun w => wordAt w cs)

/-- Scan for `\b(w1|w2|...)\b` where every token starts with a word character:
a match can start only where the previous character is absent or non-word.
`prev` is the character before the current position. -/
def hasWordScanAux (ws : List String) : Option Char → List Char → Bool
  | _, [] => false
  | prev, c :: cs =>
    ((match prev with | none => true | some p => !isWordChar p) && anyWordAt ws (c :: cs))
      || hasWordScanAux ws (some c) cs

/-- Test of the `methodVerbs` regex. -/
def hasMethodVerb (cs : List Char) : Bool := hasWordScanAux methodVerbs none cs

/-- The measurement-unit alternation of the `measurements` regex, with each
optional `s?` expanded into its two variants (`test()` semantics only needs
the existential; `T`/`CH`/`ch` collapse under case-insensitive matching). -/
def measureUnitToks : List String :=
  ["t", "ch", "taza", "tazas", "grm", "grms", "gramo", "gramos", "kg", "ml",
   "litro", "cucharada", "cucharadita", "pizca", "unidad", "unidades", "pcs",
   "diente", "dientes", "ramita", "ramitas", "hoja", "hojas", "rebanada",
   "rebanadas", "tajada", "tajadas", "rodaja", "rodajas"]

/-- The vulgar-fraction glyphs of the `measurements` regex (all non-word
characters). -/
def fracGlyph (c : Char) : Bool :=
  c == '½' || c == '¼' || c == '¾' || c == '⅓' || c == '⅔'

/-- After the numeric part: `\s*` then a unit token with its trailing `\b`
(whitespace cannot start a unit token, so the greedy `\s*` is forced). -/
def unitAfterNum (rest : List Char) : Bool :=
  measureUnitToks.any (fun u => wordAt u (rest.dropWhile isWsChar))

/-- One attempted match of `\b(\d+|½|¼|¾|⅓|⅔)\s*(unit...)\b` at the current
position.  A `\d+` start needs the previous character absent or non-word
(digits are word characters); a fraction glyph is a non-word character, so
the leading `\b` holds only when the previous character IS a word character.
Greedy `\d+` is forced: no unit token or whitespace starts with a digit. -/
def measureAt (prev : Option Char) (cs : List Char) : Bool :=
  (let ds := cs.takeWhile isDigitChar
   !ds.isEmpty && (match prev with | none => true | some p => !isWordChar p) &&
     unitAfterNum (cs.drop ds.length)) ||
  (match cs with
   | c :: rest =>
     fracGlyph c && (match prev with | none => false | some p => isWordChar p) &&
       unitAfterNum rest
   | [] => false)

/-- Scan of the `measurements` regex over all start positions. -/
def hasMeasurement : Option Char → List Char → Bool
  | _, [] => false
  | prev, c :: cs => measureAt prev (c :: cs) || hasMeasurement (some c) cs

/-- Bullet/number start `/^[\d•\-\*]/`. -/
def startsBullet (cs : List Char) : Bool :=
  match cs with
  | c :: _ => isDigitChar c || c == '•' || c == '-' || c == '*'
  | [] => false

/-- `looksLikeIngredient` (src/scripts/parse-recetas.js): the ordered
per-line heuristic (trim; reject blank or over-80-character lines; reject
lines with cooking verbs; accept bullet/number starts; accept measurement
patterns; accept short period-free lines). -/
def looksLikeIngredient (line : String) : Bool :=
  let t := trimChars line.data
  if t.isEmpty then false
  else if 80 < t.length then false
  else if hasMethodVerb t then false
  else if startsBullet t then true
  else if hasMeasurement none t then true
  else if t.length < 50 && !(t.contains '.') then true
  else false

/-! ## ContentClassifier (`separateContent`, src/scripts/parse-recetas.js) -/

/-- JS `content.split('\n')` on the character list. -/
def splitNL (cs : List Char) : List (List Char) :=
  cs.foldr
    (fun c acc =>
      if c == '\n' then [] :: acc
      else
        match acc with
        | a :: rest => (c :: a) :: rest
        | [] => [[c]])
    [[]]

/-- `split('\n')` at the string level. -/
def splitLines (s : String) : List String := (splitNL s.data).map (fun l => ⟨l⟩)

/-- JS `Array.prototype.join(sep)`. -/
def joinSep (sep : String) : List String → String
  | [] => ""
  | [s] => s
  | s :: rest => s ++ sep ++ joinSep sep rest

/-- Loop state of `separateContent`: collected ingredient lines, collected
method lines, the pending-blank flag and the one-way in-method flag. -/
structure SepState where
  ings : List String
  meths : List String
  foundBlank : Bool
  inMethod : Bool
deriving DecidableEq

/-- One iteration of the `separateContent` loop on one line. -/
def sepStep (st : SepState) (line : String) : SepState :=
  let trimmed := trimStr line
  if trimmed.data.isEmpty then
    if 0 < st.ings.length && !st.inMethod then { st with foundBlank := true } else st
  else
    let st1 :=
      if st.foundBlank && !st.inMethod && !looksLikeIngredient trimmed then
        { st with inMethod := true }
      else st
    if st1.inMethod then { st1 with meths := st1.meths ++ [trimmed] }
    else if looksLikeIngredient trimmed then { st1 with ings := st1.ings ++ [trimmed] }
    else if st1.ings.length = 0 then
      { st1 with meths := st1.meths ++ [trimmed], inMethod := true }
    else
      { st1 with meths := st1.meths ++ [trimmed], inMethod := true }

/-- The final loop state of `separateContent` on a recipe body. -/
def sepCollect (content : String) : SepState :=
  (splitLines content).foldl sepStep ⟨[], [], false, false⟩

/-- Result shape of `separateContent`: the source returns either
`{ingredientes, metodo}` or `{content}`, modelled with optional fields. -/
structure SepResult where
  ingredientes : Option String
  metodo : Option String
  content : Option String
deriving DecidableEq

/-- `separateContent` (src/scripts/parse-recetas.js): run the state machine,
then accept the separation iff at least 2 ingredient lines and at least 1
method line were collected. -/
def separateContent (content : String) : SepResult :=
  let st := sepCollect content
  if 2 ≤ st.ings.length ∧ 1 ≤ st.meths.length then
    ⟨some (joinSep "\n" st.ings), some (joinSep "\n\n" st.meths), none⟩
  else
    ⟨none, none, some (trimStr content)⟩

/-! ## RecipeSegmenter loop (`parseRecipes` and `main`, src/scripts/parse-recetas.js) -/

/-- A recipe under construction: title, slug and accumulated raw body. -/
structure RawRecipe where
  title : String
  slug : String
  rawContent : String
deriving DecidableEq

/-- Loop state of `parseRecipes`: finished recipes, the open recipe, and the
index-mode flag. -/
structure ParseState where
  recipes : List RawRecipe
  current : Option RawRecipe
  inIndex : Bool
deriving DecidableEq

/-- Close the open recipe, keeping it only if its accumulated body is
non-blank (`currentRecipe.rawContent.trim()` truthy). -/
def pushIfNonBlank (recipes : List RawRecipe) (cur : Option RawRecipe) : List RawRecipe :=
  match cur with
  | some r => if (trimStr r.rawContent).data.isEmpty then recipes else recipes ++ [r]
  | none => recipes

/-- On a title line: close the open recipe and open a new one with the cleaned
title and its slug. -/
def openRecipe (st : ParseState) (trimmed : String) : ParseState :=
  let title := cleanTitle trimmed
  { recipes := pushIfNonBlank st.recipes st.current
    current := some ⟨title, slugify title, ""⟩
    inIndex := st.inIndex }

/-- `/^[A-Z]$/` (single-letter index headings). -/
def isSingleUpper (s : String) : Bool :=
  match s.data with
  | [c] => 'A' ≤ c && c ≤ 'Z'
  | _ => false

/-- Exact literal-token test at the start of a string. -/
def startsTok : List Char → List Char → Bool
  | [], _ => true
  | _ :: _, [] => false
  | t :: ts, c :: cs => c == t && startsTok ts cs

/-- `trimmed.startsWith('INDEX')`. -/
def startsINDEX (s : String) : Bool := startsTok "INDEX".data s.data

/-- One iteration of the `parseRecipes` loop on one line.  A recipe-title line
seen while still in index mode exits index mode and falls through to the title
handling, matching the source's control flow. -/
def parseStep (st : ParseState) (line : String) : ParseState :=
  let trimmed := trimStr line
  if trimmed.data.isEmpty && st.current.isNone then st
  else if st.inIndex then
    if isIndexEntry trimmed then st
    else if isSingleUpper trimmed then st
    else if startsINDEX trimmed then st
    else if isRecipeTitle trimmed then openRecipe { st with inIndex := false } trimmed
    else st
  else if isRecipeTitle trimmed then openRecipe st trimmed
  else
    match st.current with
    | some r => { st with current := some { r with rawContent := r.rawContent ++ line ++ "\n" } }
    | none => st

/-- `parseRecipes` (src/scripts/parse-recetas.js): fold the loop over the
lines, then close the last open recipe. -/
def parseRecipes (input : String) : List RawRecipe :=
  let st := (splitLines input).foldl parseStep ⟨[], none, true⟩
  pushIfNonBlank st.recipes st.current

/-- The emitted recipe record (title, slug, and the fields produced by
`separateContent` spread into the object). -/
structure Recipe where
  title : String
  slug : String
  ingredientes : Option String
  metodo : Option String
  content : Option String
deriving DecidableEq

/-- Per-recipe post-processing of `main`: spread `separateContent` over the
raw body. -/
def finishRecipe (r : RawRecipe) : Recipe :=
  let s := separateContent r.rawContent
  ⟨r.title, r.slug, s.ingredientes, s.metodo, s.content⟩

/-- The recipe records emitted by Pipeline A (`processedRecipes` in `main`). -/
def processRecipes (input : String) : List Recipe :=
  (parseRecipes input).map finishRecipe

/-! ## Claim C1: pack-based vs count-based contribution -/

/-- C1: for every ingredient occurrence, the aggregator's contributed total
(`parsedAmount` of the pushed record) is `parsedAmount * quantity` when
`parseQuantityFromLabel` marks the label pack-based, and `quantity` alone when
it marks it count-based; `"Chicken breast strips (250g)"` parses to
`(250, g, pack-based)` and contributes `750` at quantity 3, and
`"White potato x4"` parses count-based and contributes `4` at quantity 4. -/
theorem combine_contribution_c1 :
    (∀ (title : String) (ing : RawIngredient),
      ((parseQuantityFromLabel ing.label).isPackBased = true →
        (mkItem title ing).parsedAmount =
          (parseQuantityFromLabel ing.label).amount * ing.quantity) ∧
      ((parseQuantityFromLabel ing.label).isPackBased = false →
        (mkItem title ing).parsedAmount = ing.quantity)) ∧
    parseQuantityFromLabel "Chicken breast strips (250g)" = ⟨250, "g", true⟩ ∧
    (mkItem "R" ⟨"i1", "chicken breast strips", "Chicken breast strips (250g)", none, 3⟩).parsedAmount = 750 ∧
    (parseQuantityFromLabel "White potato x4").isPackBased = false ∧
    (mkItem "R" ⟨"i2", "white potato", "White potato x4", none, 4⟩).parsedAmount = 4 := by
  refine ⟨fun title ing => ⟨fun h => ?_, fun h => ?_⟩, ?_, ?_, ?_, ?_⟩
  · simp [mkItem, h]
  · simp [mkItem, h]
  · with_unfolding_all decide
  · with_unfolding_all decide
  · with_unfolding_all decide
  · with_unfolding_all decide

/-- Witness for C1 at a concrete pack-based occurrence. -/
theorem combine_contribution_c1_witness :
    (mkItem "R" ⟨"i3", "garlic", "Garlic (2pcs)", none, 5⟩).parsedAmount =
      (parseQuantityFromLabel "Garlic (2pcs)").amount * 5 :=
  (combine_contribution_c1.1 "R" ⟨"i3", "garlic", "Garlic (2pcs)", none, 5⟩).1
    (by with_unfolding_all decide)

/-! ## Claim C5: totality and the conservative default of the parser -/

/-- C5: `parseQuantityFromLabel` is total (it always returns a result — the
embedding is a plain function, not an `Option`), and on any label where all
four quantity patterns fail after the `x0` strip it returns exactly
`amount = 1, unit = "pcs", isPackBased = false`. -/
theorem parse_default_c5 (label : String) :
    (∃ r, parseQuantityFromLabel label = r) ∧
    (scanParenUnit (stripX0 label.data) = none →
      scanParenNum (stripX0 label.data) = none →
      scanXSuffix (stripX0 label.data) = none →
      leadingNum (stripX0 label.data) = none →
      parseQuantityFromLabel label = ⟨1, "pcs", false⟩) := by
  refine ⟨⟨_, rfl⟩, fun h1 h2 h3 h4 => ?_⟩
  simp [parseQuantityFromLabel, h1, h2, h3, h4]

/-- Witness for C5 on the unit-less label `"Red onion"`. -/
theorem parse_default_c5_witness :
    parseQuantityFromLabel "Red onion" = ⟨1, "pcs", false⟩ :=
  (parse_default_c5 "Red onion").2 (by with_unfolding_all decide)
    (by with_unfolding_all decide) (by with_unfolding_all decide)
    (by with_unfolding_all decide)

/-! ## Helper lemmas for the aggregator claims -/

/-- Membership is preserved by the insertion-order dedup. -/
theorem firstDedup_mem (a : String) (l : List String) :
    a ∈ firstDedup l ↔ a ∈ l := by
  induction l using firstDedup.induct with
  | case1 => simp [firstDedup]
  | case2 b l ih =>
    rw [firstDedup]
    simp only [List.mem_cons, ih, List.mem_filter]
    constructor
    · rintro (rfl | ⟨h, _⟩)
      · exact Or.inl rfl
      · exact Or.inr h
    · rintro (rfl | h)
      · exact Or.inl rfl
      · by_cases hab : a = b
        · exact Or.inl hab
        · exact Or.inr ⟨h, by simp [hab]⟩

/-- A fold of additions equals the starting value plus the sum of the
quantities' amounts. -/
theorem foldl_add_amounts (items : List GroupItem) (a : ℚ) :
    items.foldl (fun s i => s + i.parsedAmount) a
      = a + ((itemQuantities items).map (fun q => q.amount)).sum := by
  induction items generalizing a with
  | nil => simp [itemQuantities]
  | cons i is ih => simp [itemQuantities, ih, add_assoc]

/-- Every emitted row's `totalAmount` is the sum of its own quantities. -/
theorem mkCombined_total (n d u : String) (items : List GroupItem) :
    (mkCombined n d u items).totalAmount
      = ((mkCombined n d u items).quantities.map (fun q => q.amount)).sum := by
  simp [mkCombined, sumAmounts, foldl_add_amounts]

/-- The totals invariant holds for every row emitted for one name bucket. -/
theorem emitGroup_total {name : String} {items : List GroupItem}
    {r : CombinedIngredient} (hr : r ∈ emitGroup name items) :
    r.totalAmount = (r.quantities.map (fun q => q.amount)).sum := by
  simp only [emitGroup] at hr
  split at hr
  · rcases List.mem_singleton.mp hr with rfl
    exact mkCombined_total _ _ _ _
  · obtain ⟨u, _, rfl⟩ := List.mem_map.mp hr
    exact mkCombined_total _ _ _ _

/-! ## Claim C2: totalAmount is the sum of the quantities -/

/-- C2: every `CombinedIngredient` produced by `combineIngredients` has
`totalAmount` equal to the exact sum of the `amount` fields of its
`quantities` array. -/
theorem combined_total_c2 (cmp : String → String → Bool)
    (lists : List RecipeIngredients) (r : CombinedIngredient)
    (hr : r ∈ combineIngredients cmp lists) :
    r.totalAmount = (r.quantities.map (fun q => q.amount)).sum := by
  have hr2 : r ∈ combineIngredientsCore lists :=
    (List.mergeSort_perm (combineIngredientsCore lists) _).mem_iff.mp hr
  simp only [combineIngredientsCore] at hr2
  obtain ⟨n, hn, hmem⟩ := List.mem_flatMap.mp hr2
  exact emitGroup_total hmem

/-- Witness for C2 on a one-occurrence aggregation run. -/
theorem combined_total_c2_witness :
    (⟨"garlic", "Garlic", [⟨40, "g", "Garlic (40g)"⟩], 40, "g", none, 1⟩ :
        CombinedIngredient).totalAmount
      = (([⟨40, "g", "Garlic (40g)"⟩] : List ParsedQuantity).map (fun q => q.amount)).sum :=
  combined_total_c2 (fun _ _ => true)
    [⟨"R1", [⟨"i1", "garlic", "Garlic (40g)", none, 1⟩]⟩]
    ⟨"garlic", "Garlic", [⟨40, "g", "Garlic (40g)"⟩], 40, "g", none, 1⟩
    (by with_unfolding_all decide)

/-- The seven canonical unit tokens a grouped row can carry. -/
def canonicalUnits : List String := ["g", "kg", "ml", "l", "tsp", "tbsp", "pcs"]

/-- A successful unit-alternation match returns one of the tried tokens. -/
theorem findUnitTok_mem : ∀ (us : List String) (cs : List Char) (u : String),
    findUnitTok us cs = some u → u ∈ us := by
  intro us
  induction us with
  | nil => intro cs u h; simp [findUnitTok] at h
  | cons v vs ih =>
    intro cs u h
    rw [findUnitTok] at h
    split at h
    next rest heq =>
      split at h
      · injection h with h2
        exact h2 ▸ List.mem_cons_self v vs
      · exact List.mem_cons_of_mem _ (ih _ _ h)
    next => exact List.mem_cons_of_mem _ (ih _ _ h)

/-- Pattern 1 can only report a unit from its alternation. -/
theorem parenUnitAt_mem {cs : List Char} {a : ℚ} {u : String}
    (h : parenUnitAt cs = some (a, u)) : u ∈ unitAlts := by
  unfold parenUnitAt at h
  split at h
  next r1 =>
    split at h
    next a2 r2 heq2 =>
      split at h
      next u2 heq3 =>
        injection h with h2
        cases h2
        exact findUnitTok_mem _ _ _ heq3
      next => simp at h
    next => simp at h
  next => simp at h

/-- The leftmost-match scan for pattern 1 only reports alternation units. -/
theorem scanParenUnit_mem : ∀ (cs : List Char) (a : ℚ) (u : String),
    scanParenUnit cs = some (a, u) → u ∈ unitAlts := by
  intro cs
  induction cs with
  | nil => intro a u h; simp [scanParenUnit] at h
  | cons c cs ih =>
    intro a u h
    rw [scanParenUnit] at h
    cases hp : parenUnitAt (c :: cs) with
    | some r =>
      rw [hp] at h
      injection h with h2
      subst h2
      exact parenUnitAt_mem hp
    | none =>
      rw [hp] at h
      exact ih a u h

/-- The parser's reported unit is always one of the eight lowercase tokens
(the seven canonical ones plus `pc`). -/
theorem parse_unit_mem (label : String) :
    (parseQuantityFromLabel label).unit ∈ unitAlts := by
  unfold parseQuantityFromLabel
  cases hs1 : scanParenUnit (stripX0 label.data) with
  | some r =>
    obtain ⟨a, u⟩ := r
    simp only [hs1]
    simpa using scanParenUnit_mem _ a u hs1
  | none =>
    simp only [hs1]
    cases hs2 : scanParenNum (stripX0 label.data) with
    | some a => simp only [hs2]; simp [unitAlts]
    | none =>
      simp only [hs2]
      cases hs3 : scanXSuffix (stripX0 label.data) with
      | some n => simp only [hs3]; simp [unitAlts]
      | none =>
        simp only [hs3]
        cases hs4 : leadingNum (stripX0 label.data) with
        | some n => simp only [hs4]; simp [unitAlts]
        | none => simp only [hs4]; simp [unitAlts]

/-- The measured-unit filter of the first aggregation loop coerces any
alternation unit into the canonical seven. -/
theorem unit_coerce_mem (u : String) (h : u ∈ unitAlts) :
    (if measuredUnits.contains (strLower u) then u else "pcs") ∈ canonicalUnits := by
  simp only [unitAlts, List.mem_cons, List.mem_singleton, List.not_mem_nil, or_false] at h
  rcases h with rfl | rfl | rfl | rfl | rfl | rfl | rfl | rfl <;> decide

/-- Every pushed occurrence record carries a canonical unit. -/
theorem mkItem_unit_mem (t : String) (ing : RawIngredient) :
    (mkItem t ing).unit ∈ canonicalUnits := by
  simpa [mkItem] using unit_coerce_mem _ (parse_unit_mem ing.label)

/-- Canonical units are fixed points of lowercasing. -/
theorem canonical_strLower (u : String) (h : u ∈ canonicalUnits) : strLower u = u := by
  simp only [canonicalUnits, List.mem_cons, List.mem_singleton, List.not_mem_nil, or_false] at h
  rcases h with rfl | rfl | rfl | rfl | rfl | rfl | rfl <;> decide

/-- For canonical items the bucket key is the unit itself. -/
theorem unitKey_eq {i : GroupItem} (hi : i.unit ∈ canonicalUnits) : unitKey i = i.unit :=
  canonical_strLower _ hi

/-- Every bucket key of a canonical item list is the unit of one of its
items, and hence canonical itself. -/
theorem key_canonical {items : List GroupItem}
    (hItems : ∀ i ∈ items, i.unit ∈ canonicalUnits) {k : String}
    (hk : k ∈ unitKeys items) : k ∈ canonicalUnits := by
  rw [unitKeys, firstDedup_mem] at hk
  obtain ⟨i, hi, hik⟩ := List.mem_map.mp hk
  have hu := hItems i hi
  rw [unitKey_eq hu] at hik
  exact hik ▸ hu

/-- Unit coherence of every row emitted for one name bucket: each quantity
carries the row's unit, and the row's unit is canonical. -/
theorem emitGroup_units {name : String} {items : List GroupItem}
    (hItems : ∀ i ∈ items, i.unit ∈ canonicalUnits) {r : CombinedIngredient}
    (hr : r ∈ emitGroup name items) :
    (∀ q ∈ r.quantities, q.unit = r.unit) ∧ r.unit ∈ canonicalUnits := by
  simp only [emitGroup] at hr
  split at hr
  next hlen =>
    rcases List.mem_singleton.mp hr with rfl
    obtain ⟨k, hkeys⟩ := List.length_eq_one.mp hlen
    have hku : k ∈ canonicalUnits := by
      have hk : k ∈ unitKeys items := hkeys ▸ List.mem_cons_self k []
      exact key_canonical hItems hk
    constructor
    · intro q hq
      obtain ⟨i, hi, rfl⟩ := List.mem_map.mp hq
      have hik : unitKey i ∈ unitKeys items := by
        rw [unitKeys, firstDedup_mem]
        exact List.mem_map_of_mem unitKey hi
      rw [hkeys, List.mem_singleton] at hik
      show i.unit = (mkCombined _ _ ((unitKeys items).headD "") items).unit
      rw [mkCombined, hkeys]
      simpa [unitKey_eq (hItems i hi)] using hik
    · show (mkCombined _ _ ((unitKeys items).headD "") items).unit ∈ canonicalUnits
      rw [mkCombined, hkeys]
      exact hku
  next =>
    obtain ⟨u, hu, rfl⟩ := List.mem_map.mp hr
    have hcanon : u ∈ canonicalUnits := key_canonical hItems hu
    refine ⟨?_, hcanon⟩
    intro q hq
    obtain ⟨i, hi, rfl⟩ := List.mem_map.mp hq
    have hif : unitKey i == u := (List.mem_filter.mp hi).2
    have hmem : i ∈ items := (List.mem_filter.mp hi).1
    show i.unit = (mkCombined _ _ u _).unit
    rw [mkCombined]
    rw [← unitKey_eq (hItems i hmem)]
    exact eq_of_beq hif

/-! ## Claim C10: unit coherence and the canonical unit set -/

/-- C10: in every row produced by `combineIngredients`, every element of
`quantities` has a unit equal to the row's own `unit`, and that unit is one
of the seven canonical tokens `g, kg, ml, l, tsp, tbsp, pcs` (units outside
the measured set, such as `pc`, having been coerced to `pcs` before
grouping). -/
theorem combined_units_c10 (cmp : String → String → Bool)
    (lists : List RecipeIngredients) (r : CombinedIngredient)
    (hr : r ∈ combineIngredients cmp lists) :
    (∀ q ∈ r.quantities, q.unit = r.unit) ∧ r.unit ∈ canonicalUnits := by
  have hr2 : r ∈ combineIngredientsCore lists :=
    (List.mergeSort_perm (combineIngredientsCore lists) _).mem_iff.mp hr
  simp only [combineIngredientsCore] at hr2
  obtain ⟨n, hn, hmem⟩ := List.mem_flatMap.mp hr2
  refine emitGroup_units ?_ hmem
  intro i hi
  obtain ⟨p, hpf, hp2⟩ := List.mem_map.mp hi
  have hpa : p ∈ allGroupItems lists := (List.mem_filter.mp hpf).1
  simp only [allGroupItems] at hpa
  obtain ⟨l, _, hpm⟩ := List.mem_flatMap.mp hpa
  obtain ⟨ing, _, hpe⟩ := List.mem_map.mp hpm
  rw [← hp2, ← hpe]
  exact mkItem_unit_mem l.recipeTitle ing

/-- Witness for C10 on a one-occurrence aggregation run. -/
theorem combined_units_c10_witness :
    (⟨"garlic", "Garlic", [⟨40, "g", "Garlic (40g)"⟩], 40, "g", none, 1⟩ :
        CombinedIngredient).unit ∈ canonicalUnits :=
  (combined_units_c10 (fun _ _ => true)
    [⟨"R2", [⟨"i2", "garlic", "Garlic (40g)", none, 1⟩]⟩]
    ⟨"garlic", "Garlic", [⟨40, "g", "Garlic (40g)"⟩], 40, "g", none, 1⟩
    (by with_unfolding_all decide)).2

/-! ## Claim C4: per-unit disambiguation, display names, recipe counts -/

/-- Spec-side characterization of the display name: the ingredient name with
only its first character upper-cased.  (The source computes this through
`getCleanDisplayName`, which ignores its label argument.) -/
def specCapitalize (s : String) : String :=
  match s.data with
  | [] => ""
  | c :: rest => ⟨upperChar c :: rest⟩

/-- The source's display-name helper agrees with the spec-side capitalization
for every name and label. -/
theorem getCleanDisplayName_eq_spec (n l : String) :
    getCleanDisplayName n l = specCapitalize n := rfl

/-- C4: a name bucket spanning a single normalized unit emits exactly one row
with the name unmodified; a bucket spanning several units emits one row per
unit with `" (<unit>)"` suffixed to both `name` and `displayName`; in every
row the display name is the ingredient name with only its first character
upper-cased, and `recipeCount` is the number of distinct recipe titles of the
specific (name, unit) group; on the spec's example, two `garlic` occurrences
with normalized units `g` (total 40) and `pcs` (total 3) yield the two rows
`"garlic (g)"` and `"garlic (pcs)"`. -/
theorem emit_naming_c4 :
    (∀ (name : String) (items : List GroupItem),
      ((unitKeys items).length = 1 →
        (emitGroup name items).length = 1 ∧
        ∀ r ∈ emitGroup name items,
          r.name = name ∧ r.displayName = specCapitalize name ∧
          r.recipeCount = distinctCount (items.map (fun i => i.recipeTitle))) ∧
      (1 < (unitKeys items).length →
        (emitGroup name items).length = (unitKeys items).length ∧
        ∀ r ∈ emitGroup name items, ∃ u ∈ unitKeys items,
          r.name = name ++ " (" ++ u ++ ")" ∧
          r.displayName = specCapitalize name ++ " (" ++ u ++ ")" ∧
          r.recipeCount = distinctCount
            ((items.filter (fun i => unitKey i == u)).map (fun i => i.recipeTitle)))) ∧
    ((combineIngredients (fun _ _ => true)
        [⟨"Recipe A", [⟨"i1", "garlic", "Garlic (40g)", none, 1⟩]⟩,
         ⟨"Recipe B", [⟨"i2", "garlic", "Garlic x3", none, 3⟩]⟩]).map
      (fun r => (r.name, r.displayName, r.unit, r.totalAmount, r.recipeCount)))
      = [("garlic (g)", "Garlic (g)", "g", 40, 1),
         ("garlic (pcs)", "Garlic (pcs)", "pcs", 3, 1)] := by
  refine ⟨fun name items => ⟨fun hone => ?_, fun hmany => ?_⟩, ?_⟩
  · constructor
    · simp [emitGroup, hone]
    · intro r hr
      simp only [emitGroup, hone, if_pos] at hr
      rcases List.mem_singleton.mp hr with rfl
      exact ⟨rfl, rfl, rfl⟩
  · have hne : ¬((unitKeys items).length = 1) := by omega
    constructor
    · simp [emitGroup, hne]
    · intro r hr
      simp only [emitGroup, hne, if_false] at hr
      obtain ⟨u, hu, rfl⟩ := List.mem_map.mp hr
      exact ⟨u, hu, rfl, rfl, rfl⟩
  · with_unfolding_all decide

/-- Witness for C4 on a concrete single-unit bucket. -/
theorem emit_naming_c4_witness :
    (emitGroup "garlic" [⟨"Garlic (40g)", none, 40, "g", 1, "Recipe A"⟩]).length = 1 :=
  ((emit_naming_c4.1 "garlic" [⟨"Garlic (40g)", none, 40, "g", 1, "Recipe A"⟩]).1
    (by with_unfolding_all decide)).1

/-! ## Claim C6: index entries are never titles -/

/-- C6: a line matching the index-entry pattern (middle dot followed by
trailing digits) is never classified as a recipe title, regardless of its
uppercase share or cleaned length. -/
theorem title_not_index_c6 (line : String) (h : isIndexEntry line = true) :
    isRecipeTitle line = false := by
  simp [isRecipeTitle, h]

/-- Witness for C6 on an uppercase-dominant index line of cleaned length
well above 3. -/
theorem title_not_index_c6_witness :
    isRecipeTitle "ENSALADA DE QUINOA · 42" = false :=
  title_not_index_c6 "ENSALADA DE QUINOA · 42" (by decide)

/-! ## Claim C9: the ingredient-to-method transition is one-way -/

/-- C9: once the `separateContent` state machine is in the method section,
one step never leaves it: the in-method flag stays set, the ingredient lines
are untouched, every non-blank line is appended to the method lines, and a
blank line changes nothing. -/
theorem method_oneway_c9 (st : SepState) (line : String) (h : st.inMethod = true) :
    (sepStep st line).inMethod = true ∧
    (sepStep st line).ings = st.ings ∧
    ((trimStr line).data ≠ [] → (sepStep st line).meths = st.meths ++ [trimStr line]) ∧
    ((trimStr line).data = [] → (sepStep st line).meths = st.meths) := by
  by_cases hb : (trimStr line).data.isEmpty
  · have hb2 : (trimStr line).data = [] := List.isEmpty_iff.mp hb
    simp [sepStep, hb, hb2, h]
  · have hb2 : (trimStr line).data ≠ [] := fun he => hb (by simp [he])
    simp [sepStep, hb, hb2, h]

/-- Witness for C9: a concrete in-method state and a non-blank line. -/
theorem method_oneway_c9_witness :
    (sepStep ⟨["2 tazas de harina", "1 taza de azúcar"], ["Mezclar bien."], false, true⟩
        "Servir caliente.").meths
      = ["Mezclar bien."] ++ [trimStr "Servir caliente."] :=
  (method_oneway_c9
    ⟨["2 tazas de harina", "1 taza de azúcar"], ["Mezclar bien."], false, true⟩
    "Servir caliente." (by decide)).2.2.1 (by decide)

/-! ## Claim C8: the acceptance rule of separateContent -/

/-- C8: `separateContent` returns the ingredient lines joined by a newline
and the method lines joined by blank lines exactly when the state machine
collected at least 2 ingredient lines and at least 1 method line, and the
trimmed raw body otherwise; on the spec's example body the separation
succeeds with the stated strings. -/
theorem separate_rule_c8 :
    (∀ content : String,
      (2 ≤ (sepCollect content).ings.length ∧ 1 ≤ (sepCollect content).meths.length →
        separateContent content =
          ⟨some (joinSep "\n" (sepCollect content).ings),
           some (joinSep "\n\n" (sepCollect content).meths), none⟩) ∧
      (¬(2 ≤ (sepCollect content).ings.length ∧ 1 ≤ (sepCollect content).meths.length) →
        separateContent content = ⟨none, none, some (trimStr content)⟩)) ∧
    separateContent
        "2 tazas de harina\n1 taza de azúcar\n\nMezclar los ingredientes secos.\nHornear a 180 grados." =
      ⟨some "2 tazas de harina\n1 taza de azúcar",
       some "Mezclar los ingredientes secos.\n\nHornear a 180 grados.", none⟩ := by
  refine ⟨fun content => ⟨fun h => ?_, fun h => ?_⟩, by decide⟩
  · simp [separateContent, h]
  · simp [separateContent, h]

/-- Witness for C8: the acceptance direction applied to the example body. -/
theorem separate_rule_c8_witness :
    separateContent
        "2 tazas de harina\n1 taza de azúcar\n\nMezclar los ingredientes secos.\nHornear a 180 grados." =
      ⟨some (joinSep "\n" (sepCollect
          "2 tazas de harina\n1 taza de azúcar\n\nMezclar los ingredientes secos.\nHornear a 180 grados.").ings),
       some (joinSep "\n\n" (sepCollect
          "2 tazas de harina\n1 taza de azúcar\n\nMezclar los ingredientes secos.\nHornear a 180 grados.").meths),
       none⟩ :=
  (separate_rule_c8.1
    "2 tazas de harina\n1 taza de azúcar\n\nMezclar los ingredientes secos.\nHornear a 180 grados.").1
    (by decide)

/-! ## Claim C3: exactly one of the two record shapes -/

/-- The result of `separateContent` always has exactly one of the two shapes:
`content` alone, or `ingredientes` and `metodo` together. -/
theorem separateContent_shape (content : String) :
    ((separateContent content).content.isSome ∧
      (separateContent content).ingredientes = none ∧
      (separateContent content).metodo = none) ∨
    ((separateContent content).ingredientes.isSome ∧
      (separateContent content).metodo.isSome ∧
      (separateContent content).content = none) := by
  by_cases h : 2 ≤ (sepCollect content).ings.length ∧ 1 ≤ (sepCollect content).meths.length
  · right; simp [separateContent, h]
  · left; simp [separateContent, h]

/-- C3: every recipe record emitted by Pipeline A (all of which had a
non-blank body) has exactly one of the two shapes: `content` set with neither
`ingredientes` nor `metodo`, or both `ingredientes` and `metodo` set with no
`content` — never both shapes, never neither. -/
theorem recipe_shape_c3 (input : String) (r : Recipe) (hr : r ∈ processRecipes input) :
    (r.content.isSome ∧ r.ingredientes = none ∧ r.metodo = none) ∨
    (r.ingredientes.isSome ∧ r.metodo.isSome ∧ r.content = none) := by
  simp only [processRecipes] at hr
  obtain ⟨raw, _, rfl⟩ := List.mem_map.mp hr
  simpa [finishRecipe] using separateContent_shape raw.rawContent

/-- The concrete record used to witness C3. -/
def exRecipeC3 : Recipe :=
  ⟨"POLLO AL HORNO", "pollo-al-horno",
    some "2 tazas de harina\n1 taza de azúcar", some "Mezclar bien.", none⟩

/-- Witness for C3 on a concrete input whose single recipe separates. -/
theorem recipe_shape_c3_witness :
    (exRecipeC3.content.isSome ∧ exRecipeC3.ingredientes = none ∧
      exRecipeC3.metodo = none) ∨
    (exRecipeC3.ingredientes.isSome ∧ exRecipeC3.metodo.isSome ∧
      exRecipeC3.content = none) :=
  recipe_shape_c3
    "INDEX\nPOLLO AL HORNO · 3\nA\n\nPOLLO AL HORNO\n2 tazas de harina\n1 taza de azúcar\n\nMezclar bien."
    exRecipeC3
    (by with_unfolding_all decide)

/-! ## Claim C7: shape of slugs -/

/-- The character set claimed for slugs: lowercase letters, digits, hyphen. -/
def isSlugChar (c : Char) : Bool :=
  ('a' ≤ c && c ≤ 'z') || isDigitChar c || c == '-'

/-- Reduction of one collapse step on a run character, outside a run. -/
theorem collapseRunsAux_cons_run_false {p : Char → Bool} {r a : Char}
    {as : List Char} (hp : p a = true) :
    collapseRunsAux p r false (a :: as) = r :: collapseRunsAux p r true as := by
  simp [collapseRunsAux, hp]

/-- Reduction of one collapse step on a run character, inside a run. -/
theorem collapseRunsAux_cons_run_true {p : Char → Bool} {r a : Char}
    {as : List Char} (hp : p a = true) :
    collapseRunsAux p r true (a :: as) = collapseRunsAux p r true as := by
  simp [collapseRunsAux, hp]

/-- Reduction of one collapse step on a non-run character. -/
theorem collapseRunsAux_cons_keep {p : Char → Bool} {r a : Char} {b : Bool}
    {as : List Char} (hp : p a = false) :
    collapseRunsAux p r b (a :: as) = a :: collapseRunsAux p r false as := by
  simp [collapseRunsAux, hp]

/-- Every character of a collapse result is the replacement character or a
non-run character of the input. -/
theorem collapseRunsAux_mem {p : Char → Bool} {r : Char} :
    ∀ {b : Bool} {l : List Char} {c : Char}, c ∈ collapseRunsAux p r b l →
      c = r ∨ (c ∈ l ∧ p c = false) := by
  intro b l
  induction l generalizing b with
  | nil => intro c h; simp [collapseRunsAux] at h
  | cons a as ih =>
    intro c h
    by_cases hp : p a = true
    · cases b with
      | true =>
        rw [collapseRunsAux_cons_run_true hp] at h
        rcases ih h with h1 | ⟨h2, h3⟩
        · exact Or.inl h1
        · exact Or.inr ⟨List.mem_cons_of_mem _ h2, h3⟩
      | false =>
        rw [collapseRunsAux_cons_run_false hp] at h
        rcases List.mem_cons.mp h with h1 | h2
        · exact Or.inl h1
        · rcases ih h2 with h3 | ⟨h4, h5⟩
          · exact Or.inl h3
          · exact Or.inr ⟨List.mem_cons_of_mem _ h4, h5⟩
    · rw [Bool.not_eq_true] at hp
      rw [collapseRunsAux_cons_keep hp] at h
      rcases List.mem_cons.mp h with h1 | h2
      · subst h1
        exact Or.inr ⟨List.mem_cons_self _ _, hp⟩
      · rcases ih h2 with h3 | ⟨h4, h5⟩
        · exact Or.inl h3
        · exact Or.inr ⟨List.mem_cons_of_mem _ h4, h5⟩

/-- While inside a run, the next emitted character fails the run predicate. -/
theorem collapseRunsAux_head_true {p : Char → Bool} {r : Char} :
    ∀ {l : List Char} {c : Char},
      (collapseRunsAux p r true l).head? = some c → p c = false := by
  intro l
  induction l with
  | nil => intro c h; simp [collapseRunsAux] at h
  | cons a as ih =>
    intro c h
    by_cases hp : p a = true
    · rw [collapseRunsAux_cons_run_true hp] at h
      exact ih h
    · rw [Bool.not_eq_true] at hp
      rw [collapseRunsAux_cons_keep hp, List.head?_cons] at h
      injection h with h2
      exact h2 ▸ hp

/-- No two adjacent characters of a collapse result both satisfy the run
predicate: an emitted replacement is always followed by a non-run character,
and kept characters fail the predicate themselves. -/
theorem collapseRunsAux_chain {p : Char → Bool} {r : Char} :
    ∀ {b : Bool} {l : List Char},
      (collapseRunsAux p r b l).Chain' (fun x y => ¬(p x = true ∧ p y = true)) := by
  intro b l
  induction l generalizing b with
  | nil => simp [collapseRunsAux]
  | cons a as ih =>
    by_cases hp : p a = true
    · cases b with
      | true => rw [collapseRunsAux_cons_run_true hp]; exact ih
      | false =>
        rw [collapseRunsAux_cons_run_false hp, List.chain'_cons']
        refine ⟨?_, ih⟩
        intro y hy
        have hyf : p y = false := collapseRunsAux_head_true (Option.mem_def.mp hy)
        intro hcon
        rw [hyf] at hcon
        exact absurd hcon.2 (by simp)
    · rw [Bool.not_eq_true] at hp
      rw [collapseRunsAux_cons_keep hp, List.chain'_cons']
      refine ⟨?_, ih⟩
      intro y hy
      intro hcon
      rw [hp] at hcon
      exact absurd hcon.1 (by simp)

/-- Dropping one leading hyphen only removes characters. -/
theorem dropLeadHyphen_subset {l : List Char} {c : Char}
    (h : c ∈ dropLeadHyphen l) : c ∈ l := by
  cases l with
  | nil => simpa [dropLeadHyphen] using h
  | cons a t =>
    by_cases ha : a = '-'
    · simp only [dropLeadHyphen, ha, if_pos] at h
      exact List.mem_cons_of_mem _ h
    · simpa [dropLeadHyphen, ha] using h

/-- Dropping one leading hyphen preserves any adjacency chain. -/
theorem dropLeadHyphen_chain {S : Char → Char → Prop} {l : List Char}
    (h : l.Chain' S) : (dropLeadHyphen l).Chain' S := by
  cases l with
  | nil => simpa [dropLeadHyphen] using h
  | cons a t =>
    by_cases ha : a = '-'
    · simp only [dropLeadHyphen, ha, if_pos]
      exact h.tail
    · simpa [dropLeadHyphen, ha] using h

/-- After dropping one leading hyphen from a chain that forbids adjacent
hyphens, the head is not a hyphen. -/
theorem dropLeadHyphen_head {S : Char → Char → Prop} (hS : ¬ S '-' '-')
    {l : List Char} (h : l.Chain' S) : (dropLeadHyphen l).head? ≠ some '-' := by
  cases l with
  | nil => simp [dropLeadHyphen]
  | cons a t =>
    by_cases ha : a = '-'
    · subst ha
      simp only [dropLeadHyphen, if_pos]
      intro hc
      exact hS ((List.chain'_cons'.mp h).1 '-' hc)
    · simp [dropLeadHyphen, ha]

/-- Dropping one leading hyphen cannot create a trailing hyphen. -/
theorem dropLeadHyphen_getLast {l : List Char} (h : l.getLast? ≠ some '-') :
    (dropLeadHyphen l).getLast? ≠ some '-' := by
  cases l with
  | nil => simp [dropLeadHyphen]
  | cons a t =>
    by_cases ha : a = '-'
    · subst ha
      simp only [dropLeadHyphen, if_pos]
      cases t with
      | nil => simp
      | cons b ts => rwa [List.getLast?_cons_cons] at h
    · simpa [dropLeadHyphen, ha] using h

/-- A kept character that is not whitespace lies in the slug character set. -/
theorem slugKeep_noWs {c : Char} (h1 : isSlugKeep c = true)
    (h2 : isWsChar c = false) : isSlugChar c = true := by
  simp only [isSlugKeep, Bool.or_eq_true] at h1
  simp only [isSlugChar, Bool.or_eq_true]
  rcases h1 with ((h | h) | h) | h
  · exact Or.inl (Or.inl h)
  · exact Or.inl (Or.inr h)
  · rw [h2] at h; exact absurd h (by simp)
  · exact Or.inr h

/-- The hyphen-adjacency relation claimed for slugs, as a plain proposition
on adjacent characters. -/
theorem slugify_stage_chain (title : String) :
    (collapseRuns isHyph '-' (collapseRuns isWsChar '-'
      ((title.data.map (fun c => foldAccent (lowerChar c))).filter isSlugKeep))).Chain'
      (fun a b => ¬(a = '-' ∧ b = '-')) := by
  refine List.Chain'.imp ?_ (collapseRunsAux_chain (p := isHyph) (r := '-')
    (b := false)
    (l := collapseRuns isWsChar '-'
      ((title.data.map (fun c => foldAccent (lowerChar c))).filter isSlugKeep)))
  intro x y hxy hcon
  exact hxy ⟨by simp [isHyph, hcon.1], by simp [isHyph, hcon.2]⟩

/-- Every character surviving to the hyphen-collapse stage is a slug
character. -/
theorem slugify_stage_mem (title : String) {c : Char}
    (hc : c ∈ collapseRuns isHyph '-' (collapseRuns isWsChar '-'
      ((title.data.map (fun c => foldAccent (lowerChar c))).filter isSlugKeep))) :
    isSlugChar c = true := by
  rcases collapseRunsAux_mem hc with rfl | ⟨hc3, _⟩
  · decide
  · rcases collapseRunsAux_mem hc3 with rfl | ⟨hc2, hw⟩
    · decide
    · exact slugKeep_noWs (List.mem_filter.mp hc2).2 hw

/-- C7: for every title, `slugify` produces a string whose characters all lie
in `[a-z0-9-]`, with no leading hyphen, no trailing hyphen, and no two
consecutive hyphens. -/
theorem slugify_props_c7 (title : String) :
    (slugify title).data.all isSlugChar = true ∧
    (slugify title).data.head? ≠ some '-' ∧
    (slugify title).data.getLast? ≠ some '-' ∧
    (slugify title).data.Chain' (fun a b => ¬(a = '-' ∧ b = '-')) := by
  have hS : ¬(fun (a b : Char) => ¬(a = '-' ∧ b = '-')) '-' '-' := fun h => h ⟨rfl, rfl⟩
  have hflip : ∀ {l : List Char},
      l.Chain' (fun a b => ¬(a = '-' ∧ b = '-')) →
      l.Chain' (flip (fun (a b : Char) => ¬(a = '-' ∧ b = '-'))) := by
    intro l h
    exact h.imp (fun a b hab hcon => hab ⟨hcon.2, hcon.1⟩)
  have h4chain := slugify_stage_chain title
  have h5chain := dropLeadHyphen_chain h4chain
  have h5head := dropLeadHyphen_head hS h4chain
  have hrevchain : (dropLeadHyphen (collapseRuns isHyph '-' (collapseRuns isWsChar '-'
      ((title.data.map (fun c => foldAccent (lowerChar c))).filter isSlugKeep)))).reverse.Chain'
      (fun a b => ¬(a = '-' ∧ b = '-')) :=
    List.chain'_reverse.mpr (hflip h5chain)
  have hdata : (slugify title).data =
      (dropLeadHyphen ((dropLeadHyphen (collapseRuns isHyph '-' (collapseRuns isWsChar '-'
        ((title.data.map (fun c => foldAccent (lowerChar c))).filter isSlugKeep)))).reverse)).reverse := rfl
  refine ⟨?_, ?_, ?_, ?_⟩
  · rw [List.all_eq_true]
    intro c hc
    rw [hdata, List.mem_reverse] at hc
    have hc2 := dropLeadHyphen_subset hc
    rw [List.mem_reverse] at hc2
    exact slugify_stage_mem title (dropLeadHyphen_subset hc2)
  · rw [hdata, List.head?_reverse]
    apply dropLeadHyphen_getLast
    rw [List.getLast?_reverse]
    exact h5head
  · rw [hdata, List.getLast?_reverse]
    exact dropLeadHyphen_head hS hrevchain
  · rw [hdata]
    refine List.chain'_reverse.mpr ?_
    exact hflip (dropLeadHyphen_chain hrevchain)

/-- Witness for C7 applied at a concrete title. -/
theorem slugify_props_c7_witness :
    (slugify "POLLO AL HORNO").data.all isSlugChar = true :=
  (slugify_props_c7 "POLLO AL HORNO").1
